import Mathlib

/-!
Verification of the control dispatcher in `chaoslib/control/python.py`.

The module is embedded shallowly:

* Python values that matter to the dispatcher (None, strings, numbers and
  dicts) become the inductive `PyVal`; Python dicts become association lists
  with first-match lookup and replace-or-append update, mirroring the
  one-entry-per-key behaviour of real dicts.
* the host module system (`importlib.import_module`) becomes a parameter
  `Importer`: a map from module paths to either a loaded module, a
  "module not found" outcome, or some other load failure.
* a module is a table of named functions; a function carries its declared
  parameter names (what `inspect.signature` reports) and a behaviour mapping
  positional and keyword arguments to a result or a raised error.
* fallible Python code becomes `Except PyErr`; `PyErr` covers the two
  chaoslib exception classes raised here plus the built-in TypeError /
  AttributeError / KeyError that the code can hit.
* the configuration/secret substitution engine is an external collaborator of
  this module and is passed in as an opaque function parameter `Subst`.

A second, heap-based model at the end of the file captures the aliasing and
mutation behaviour of `deepcopy` / `dict.copy`, which the pure model cannot
express.
-/

namespace Chaoslib

/-- Python values as far as the control dispatcher observes them. -/
inductive PyVal : Type where
  | vnone : PyVal
  | vstr : String → PyVal
  | vnat : Nat → PyVal
  | vdict : List (String × PyVal) → PyVal
deriving Repr

/-- A Python dict over string keys. -/
abbrev Dict := List (String × PyVal)

/-- First-match association-list lookup (models `d[k]` / `d.get(k)`). -/
def alookup {α : Type} : List (String × α) → String → Option α
  | [], _ => none
  | (k2, v) :: rest, k => if k2 = k then some v else alookup rest k

/-- Dict lookup. -/
def dget (d : Dict) (k : String) : Option PyVal := alookup d k

/-- Dict update at one key (models `d[k] = v`): replaces the existing entry
or appends a new one. -/
def dset (d : Dict) (k : String) (v : PyVal) : Dict :=
  match d with
  | [] => [(k, v)]
  | (k2, v2) :: rest => if k2 = k then (k2, v) :: rest else (k2, v2) :: dset rest k v

/-- Models `d.update(other)`: sets every entry of `other` in `d`, in order. -/
def dupdate (d other : Dict) : Dict :=
  other.foldl (fun acc kv => dset acc kv.1 kv.2) d

/-- Python truthiness for the values of `PyVal`. -/
def truthy : PyVal → Bool
  | .vnone => false
  | .vstr s => !(s = "")
  | .vnat n => !(n = 0)
  | .vdict d => !d.isEmpty

/-- The errors this module can raise or propagate: the two chaoslib
exceptions used here, the built-in errors its Python constructs can hit, and
a constructor for arbitrary exceptions raised by a hook or by a module load. -/
inductive PyErr : Type where
  | invalidControl (msg : String) : PyErr
  | invalidActivity (msg : String) : PyErr
  | typeError (msg : String) : PyErr
  | attributeError (msg : String) : PyErr
  | keyError (msg : String) : PyErr
  | otherError (msg : String) : PyErr
deriving Repr, DecidableEq

/-- A Python function object: its declared parameter names (as reported by
`inspect.signature`) and its behaviour, given positional arguments and
keyword arguments. -/
structure PyFunc : Type where
  params : List String
  run : List PyVal → List (String × PyVal) → Except PyErr PyVal

/-- A loaded Python module: a table of named function attributes. -/
abbrev PyModule := List (String × PyFunc)

/-- Outcome of `importlib.import_module` on one module path. -/
inductive ImportResult : Type where
  | found (mod : PyModule) : ImportResult
  | notFound : ImportResult
  | failed (e : PyErr) : ImportResult

/-- The host module system. -/
abbrev Importer := String → ImportResult

/-- The `provider` block of a control descriptor: the optional fields mirror
which keys are present in the Python dict. -/
structure Provider : Type where
  module : Option String
  arguments : Option Dict
  secrets : Option (List String)

/-- A control descriptor.  `module` is the descriptor's own top-level
`module` key: `validate_python_control` reads `control.get("module")`, so the
embedding must keep the top-level key distinct from `provider.module`. -/
structure Control : Type where
  name : Option String
  provider : Option Provider
  module : Option String

/-- The static lifecycle-level-to-hook-name table `_level_mapping`. -/
def level_mapping : List (String × String) :=
  [("experiment-before", "before_experiment_control"),
   ("experiment-after", "after_experiment_control"),
   ("hypothesis-before", "before_hypothesis_control"),
   ("hypothesis-after", "after_hypothesis_control"),
   ("method-before", "before_method_control"),
   ("method-after", "after_method_control"),
   ("rollback-before", "before_rollback_control"),
   ("rollback-after", "after_rollback_control"),
   ("activity-before", "before_activity_control"),
   ("activity-after", "after_activity_control")]

/-- `_level_mapping.get(level)`. -/
def level_func_name (level : String) : Option String := alookup level_mapping level

/-- `load_func(control, func_name)`.  The translation keeps every observable
step of the source: `control["provider"]` and `provider["module"]` raise
KeyError when the key is absent; a ModuleNotFoundError from the import is
swallowed and yields no hook; any other load error propagates; and
`getattr(mod, func_name, None)` raises TypeError when `func_name` is not a
string (`apply_python_control` passes `None` for unrecognized levels), else
yields the attribute or no hook. -/
def load_func (imp : Importer) (control : Control) (func_name : Option String) :
    Except PyErr (Option PyFunc) :=
  match control.provider with
  | none => .error (.keyError "provider")
  | some provider =>
    match provider.module with
    | none => .error (.keyError "module")
    | some mod_path =>
      match imp mod_path with
      | .notFound => .ok none
      | .failed e => .error e
      | .found mod =>
        match func_name with
        | none => .error (.typeError "attribute name must be string")
        | some fname => .ok (alookup mod fname)

/-- `initialize_control(control, configuration, secrets)`: resolve the
`configure_control` hook; absent hook is a no-op; otherwise call it with the
two positional arguments `(configuration, secrets)`. -/
def initialize_control (imp : Importer) (control : Control)
    (configuration secrets : PyVal) : Except PyErr Unit := do
  let func ← load_func imp control (some "configure_control")
  match func with
  | none => pure ()
  | some f => do
    let _ ← f.run [configuration, secrets] []
    pure ()

/-- `cleanup_control(control)`: resolve the `cleanup_control` hook; absent
hook is a no-op; otherwise call it with no arguments. -/
def cleanup_control (imp : Importer) (control : Control) : Except PyErr Unit := do
  let func ← load_func imp control (some "cleanup_control")
  match func with
  | none => pure ()
  | some f => do
    let _ ← f.run [] []
    pure ()

/-- `validate_python_control(control)`.  Note the faithful translation of the
source's lookup `mod_name = control.get("module")`: it reads the descriptor's
TOP-LEVEL `module` key, not `provider["module"]`, even though the local
variable `provider` was just bound. -/
def validate_python_control (imp : Importer) (control : Control) :
    Except PyErr Unit :=
  match control.name with
  | none => .error (.invalidControl "A control must have a name property")
  | some name =>
    match control.provider with
    | none =>
      .error (.invalidControl ("Control " ++ name ++ " must have a provider property"))
    | some _provider =>
      match control.module with
      | none => .error (.invalidActivity ("Control " ++ name ++ " must have a module path"))
      | some mod_name =>
        if mod_name = "" then
          .error (.invalidActivity ("Control " ++ name ++ " must have a module path"))
        else
          match imp mod_name with
          | .notFound =>
            .error (.invalidActivity
              ("could not find Python module " ++ mod_name ++ " in control " ++ name))
          | .failed e => .error e
          | .found _ => .ok ()

/-- Models `secrets.get(s, {})` where `secrets` is the caller's secrets
store: attribute access on a non-dict (in particular `None`) raises
AttributeError; a missing group yields the empty dict. -/
def secrets_for_group (secrets : PyVal) (g : String) : Except PyErr PyVal :=
  match secrets with
  | .vdict store => .ok ((dget store g).getD (.vdict []))
  | _ => .error (.attributeError "object has no attribute get")

/-- Models `v.copy()`: only dicts have a `copy` method among the values the
dispatcher handles; in the pure model the copy is the same value. -/
def pyCopy : PyVal → Except PyErr PyVal
  | .vdict d => .ok (.vdict d)
  | _ => .error (.attributeError "object has no attribute copy")

/-- Models `acc.update(v)`: updating from a non-mapping raises TypeError. -/
def dict_update_val (acc : Dict) (v : PyVal) : Except PyErr Dict :=
  match v with
  | .vdict d2 => .ok (dupdate acc d2)
  | _ => .error (.typeError "update requires a mapping")

/-- The loop
`arguments["secrets"] = {}; for s in provider["secrets"]: arguments["secrets"].update(secrets.get(s, {}).copy())`
as a fold starting from the empty dict. -/
def merge_secret_groups (secrets : PyVal) (groups : List String) :
    Except PyErr Dict :=
  groups.foldlM
    (fun acc g => do
      let gv ← secrets_for_group secrets g
      let gvc ← pyCopy gv
      dict_update_val acc gvc)
    []

/-- The external substitution engine `chaoslib.substitute`, an opaque
collaborator: arguments mapping, configuration, secrets in; new mapping out. -/
abbrev Subst := Dict → PyVal → PyVal → Dict

/-- Result of the argument-assembly phase of `apply_python_control`.
`substituted` is an observation flag recording whether the substitution pass
ran; it does not influence `args`, the keyword arguments handed to the hook. -/
structure AssembledArgs : Type where
  substituted : Bool
  args : Dict

/-- The argument-assembly phase of `apply_python_control`, lines 97-114 of
the source, in source order: deep-copy of the provider's static `arguments`
(`deepcopy` of pure values is the value itself here; the heap model below
covers the aliasing content of that step), the conditional substitution pass,
the secret-group merge, the configuration copy, and the state pass-through. -/
def assemble_arguments (substitute : Subst) (provider : Provider) (f : PyFunc)
    (state configuration secrets : PyVal) : Except PyErr AssembledArgs := do
  let arguments0 : Dict := provider.arguments.getD []
  let ranSub : Bool := truthy configuration || truthy secrets
  let arguments1 : Dict :=
    if ranSub then substitute arguments0 configuration secrets else arguments0
  let arguments2 : Dict ←
    match provider.secrets with
    | some groups =>
      if f.params.contains "secrets" then do
        let merged ← merge_secret_groups secrets groups
        pure (dset arguments1 "secrets" (.vdict merged))
      else pure arguments1
    | none => pure arguments1
  let arguments3 : Dict ←
    if f.params.contains "configuration" then do
      let c ← pyCopy configuration
      pure (dset arguments2 "configuration" c)
    else pure arguments2
  let arguments4 : Dict :=
    if f.params.contains "state" then dset arguments3 "state" state else arguments3
  pure ⟨ranSub, arguments4⟩

/-- `apply_python_control(level, control, context, state, configuration, secrets)`:
read `control["provider"]` (KeyError when absent), map the level to a hook
name through `_level_mapping.get`, resolve the hook, no-op when there is
none, otherwise assemble the arguments and call the hook with the keyword
argument `context` plus the assembled arguments expanded as keywords. -/
def apply_python_control (imp : Importer) (substitute : Subst) (level : String)
    (control : Control) (context state configuration secrets : PyVal) :
    Except PyErr (Option PyVal) := do
  match control.provider with
  | none => .error (.keyError "provider")
  | some provider => do
    let func ← load_func imp control (level_func_name level)
    match func with
    | none => pure none
    | some f => do
      let assembled ← assemble_arguments substitute provider f state configuration secrets
      let r ← f.run [] (("context", context) :: assembled.args)
      pure (some r)

/-! ### Concrete fixtures used by closed theorems and witnesses -/

/-- A host module system exposing one importable, empty module at path `os`. -/
def imp_os : Importer := fun m => if m = "os" then .found [] else .notFound

/-- A descriptor whose provider carries a resolvable module path, with no
top-level `module` key. -/
def control_provider_module_only : Control :=
  ⟨some "c", some ⟨some "os", none, none⟩, none⟩

/-- A descriptor with a resolvable top-level `module` key whose provider has
no `module` at all. -/
def control_toplevel_module_only : Control :=
  ⟨some "c", some ⟨none, none, none⟩, some "os"⟩

/-- A hook that accepts anything and returns None. -/
def hook_ok : PyFunc := ⟨["context"], fun _ _ => .ok .vnone⟩

/-- A control module exposing the activity-before hook. -/
def mod_hooks : PyModule := [("before_activity_control", hook_ok)]

/-- A host module system exposing `mod_hooks` at path `mod.hooks`. -/
def imp_hooks : Importer :=
  fun m => if m = "mod.hooks" then .found mod_hooks else .notFound

/-- A valid descriptor (name, provider, resolvable module everywhere). -/
def control_hooks : Control :=
  ⟨some "c2", some ⟨some "mod.hooks", none, none⟩, some "mod.hooks"⟩

/-- The identity substitution engine. -/
def subst_id : Subst := fun args _ _ => args

/-- The hook named `fname` is unreachable through module path `m`: either the
module is not importable, or it imports but does not expose the attribute. -/
def hook_absent (imp : Importer) (m : String) (fname : String) : Prop :=
  imp m = .notFound ∨ ∃ mod, imp m = .found mod ∧ alookup mod fname = none

/-- A hook that raises. -/
def hook_raise : PyFunc := ⟨[], fun _ _ => .error (.otherError "boom")⟩

/-- A control module with a succeeding `configure_control` and a raising
`cleanup_control`. -/
def mod_lifecycle : PyModule :=
  [("configure_control", hook_ok), ("cleanup_control", hook_raise)]

/-- A host module system exposing `mod_lifecycle` at path `life.mod`. -/
def imp_lifecycle : Importer :=
  fun m => if m = "life.mod" then .found mod_lifecycle else .notFound

/-- A descriptor pointing at `mod_lifecycle`. -/
def control_lifecycle : Control :=
  ⟨some "c8", some ⟨some "life.mod", none, none⟩, some "life.mod"⟩

/-- Left-biased choice on options: the first operand wins when present. -/
def ofirst {α : Type} : Option α → Option α → Option α
  | some v, _ => some v
  | none, b => b

/-- The keys of a dict. -/
def dkeys (d : Dict) : List String := d.map Prod.fst

/-- Boolean key-distinctness for a key list. -/
def keysNodup : List String → Bool
  | [] => true
  | k :: rest => !(rest.contains k) && keysNodup rest

/-- The entries a secret group contributes: the group's dict in the store,
or nothing when the group is absent. -/
def group_entries (store : Dict) (g : String) : Dict :=
  match dget store g with
  | some (.vdict d) => d
  | _ => []

/-- The group is well-formed for merging: absent, or a dict with distinct
keys. -/
def group_ok (store : Dict) (g : String) : Bool :=
  match dget store g with
  | none => true
  | some (.vdict d) => keysNodup (dkeys d)
  | some _ => false

/-- Modelled from the spec: the union of the named secret groups in which a
group listed later overwrites an earlier one on key collision, expressed as
a per-key lookup — the value of `k` comes from the last listed group whose
entries contain `k`. -/
def lookup_in_groups (store : Dict) (groups : List String) (k : String) : Option PyVal :=
  match groups with
  | [] => none
  | g :: rest => ofirst (lookup_in_groups store rest k) (dget (group_entries store g) k)

/-- A hook declaring `context` and `secrets` parameters. -/
def hook_secrets_param : PyFunc := ⟨["context", "secrets"], fun _ _ => .ok .vnone⟩

/-- A control module exposing `before_activity_control` with a `secrets`
parameter. -/
def mod_wants_secrets : PyModule := [("before_activity_control", hook_secrets_param)]

/-- A host module system exposing `mod_wants_secrets` at `sec.mod`. -/
def imp_wants_secrets : Importer :=
  fun m => if m = "sec.mod" then .found mod_wants_secrets else .notFound

/-- A descriptor declaring an EMPTY secret-group list. -/
def control_empty_secret_groups : Control :=
  ⟨some "c9", some ⟨some "sec.mod", none, some []⟩, some "sec.mod"⟩

/-- A descriptor declaring the two secret groups of the spec's scenario. -/
def control_two_secret_groups : Control :=
  ⟨some "c3", some ⟨some "sec.mod", some [("secrets", .vstr "stale")], some ["group-a", "group-b"]⟩,
   some "sec.mod"⟩

/-- A secrets store with two overlapping groups. -/
def store_two_groups : Dict :=
  [("group-a", .vdict [("k", .vstr "a"), ("x", .vstr "xa")]),
   ("group-b", .vdict [("k", .vstr "b")])]

/-- A hook declaring `context` and `configuration` parameters. -/
def hook_config_param : PyFunc := ⟨["context", "configuration"], fun _ _ => .ok .vnone⟩

/-- A control module exposing `before_activity_control` with a
`configuration` parameter. -/
def mod_wants_config : PyModule := [("before_activity_control", hook_config_param)]

/-- A host module system exposing `mod_wants_config` at `cfg.mod`. -/
def imp_wants_config : Importer :=
  fun m => if m = "cfg.mod" then .found mod_wants_config else .notFound

/-- A descriptor with no secret groups pointing at `mod_wants_config`. -/
def control_wants_config : Control :=
  ⟨some "c9b", some ⟨some "cfg.mod", none, none⟩, some "cfg.mod"⟩

/-! ### A heap model for copy and mutation

The pure model above cannot express what `deepcopy(provider.get("arguments", {}))`
and `configuration.copy()` protect against: in Python the substitution pass
mutates dicts in place, so argument assembly must isolate the provider's
static template and the caller's configuration from mutation through the
values handed on.  Here dict objects live in a heap addressed by naturals;
values are atoms or references to dict cells; `deepcopy` is fuel-bounded and
allocates fresh addresses from a counter, exactly like the argument-copy step
of `apply_python_control`; in-place mutation is a list of cell overwrites. -/

/-- Heap values: atoms, or references to dict objects in the heap. -/
inductive HVal : Type where
  | hstr : String → HVal
  | href : Nat → HVal
deriving Repr, DecidableEq

/-- The entry list of one dict object. -/
abbrev HDict := List (String × HVal)

/-- A heap maps addresses to dict objects; lookup takes the first match, so
prepending is destructive update. -/
abbrev Heap := List (Nat × HDict)

def heapGet (h : Heap) (a : Nat) : Option HDict :=
  match h with
  | [] => none
  | (a2, d) :: rest => if a2 = a then some d else heapGet rest a

def heapSet (h : Heap) (a : Nat) (d : HDict) : Heap := (a, d) :: h

/-- Copy a dict's entries left to right with the given value-copier,
threading the heap and the allocation counter. -/
def deepcopyEntries (copyfn : Heap → Nat → HVal → Option (Heap × Nat × HVal)) :
    Heap → Nat → HDict → Option (Heap × Nat × HDict)
  | h, c, [] => some (h, c, [])
  | h, c, (k, v) :: rest =>
    match copyfn h c v with
    | none => none
    | some (h2, c2, v2) =>
      match deepcopyEntries copyfn h2 c2 rest with
      | none => none
      | some (h3, c3, rest2) => some (h3, c3, (k, v2) :: rest2)

/-- `copy.deepcopy` of a heap value, fuel-bounded: copies every dict
reachable from the value into fresh cells at addresses `c, c+1, ...` and
returns the extended heap, the next free address and the copied value. -/
def deepcopyVal : Nat → Heap → Nat → HVal → Option (Heap × Nat × HVal)
  | _, h, c, .hstr s => some (h, c, .hstr s)
  | 0, _, _, .href _ => none
  | Nat.succ fuel, h, c, .href a =>
    match heapGet h a with
    | none => none
    | some d =>
      match deepcopyEntries (deepcopyVal fuel) h c d with
      | none => none
      | some (h2, c2, d2) => some (heapSet h2 c2 d2, c2 + 1, .href c2)

/-- Pure snapshots of heap values, for stating that an object is unchanged. -/
inductive PureVal : Type where
  | pstr : String → PureVal
  | pdict : List (String × PureVal) → PureVal

/-- Snapshot a dict's entries with the given value-reader. -/
def readEntries (rd : HVal → Option PureVal) : HDict → Option (List (String × PureVal))
  | [] => some []
  | (k, v) :: rest =>
    match rd v with
    | none => none
    | some pv =>
      match readEntries rd rest with
      | none => none
      | some prest => some ((k, pv) :: prest)

/-- Fuel-bounded snapshot of a heap value. -/
def readVal : Nat → Heap → HVal → Option PureVal
  | _, _, .hstr s => some (.pstr s)
  | 0, _, .href _ => none
  | Nat.succ fuel, h, .href a =>
    match heapGet h a with
    | none => none
    | some d =>
      match readEntries (readVal fuel h) d with
      | none => none
      | some ds => some (.pdict ds)

/-- In-place mutation: a sequence of dict-cell overwrites. -/
def applyWrites (h : Heap) (ws : List (Nat × HDict)) : Heap :=
  ws.foldl (fun h w => heapSet h w.1 w.2) h

/-- The value only references cells below `c`. -/
def valBelow (c : Nat) : HVal → Bool
  | .hstr _ => true
  | .href a => decide (a < c)

/-- Every value of the dict references only cells below `c`. -/
def dictBelow (c : Nat) (d : HDict) : Bool := d.all fun kv => valBelow c kv.2

/-- Every cell of the heap sits below `c` and references only cells below
`c` — `c` is a fresh-address frontier. -/
def heapBelow (c : Nat) (h : Heap) : Bool :=
  h.all fun ad => decide (ad.1 < c) && dictBelow c ad.2

/-- The step `arguments = deepcopy(provider.get("arguments", {}))` of
`apply_python_control`, on the heap: deep-copies the provider's static
arguments object rooted at `argsAddr`, allocating from `ctr`. -/
def deepcopy_arguments (fuel : Nat) (h : Heap) (ctr argsAddr : Nat) :
    Option (Heap × Nat × Nat) :=
  match deepcopyVal fuel h ctr (.href argsAddr) with
  | some (h2, c2, .href a2) => some (h2, c2, a2)
  | _ => none

/-- The step `arguments["configuration"] = configuration.copy()` of
`apply_python_control`, on the heap: a shallow copy allocates one fresh
top-level cell sharing the entry list (hence any nested references) with the
original configuration object at `ca`. -/
def config_shallow_copy (h : Heap) (ctr ca : Nat) : Option (Heap × Nat × Nat) :=
  match heapGet h ca with
  | none => none
  | some cd => some (heapSet h ctr cd, ctr + 1, ctr)

/-- deepcopy behaves like a copy: freshness of the result, preservation of
the heap below the allocation frontier, and snapshot equality with the
source. -/
def DeepcopyValSpec (fuel : Nat) : Prop :=
  ∀ h c v h2 c2 v2, deepcopyVal fuel h c v = some (h2, c2, v2) →
    heapBelow c h = true → valBelow c v = true →
    c ≤ c2 ∧ heapBelow c2 h2 = true ∧ valBelow c2 v2 = true ∧
    (∀ a, a < c → heapGet h2 a = heapGet h a) ∧
    (∀ g, readVal g h2 v2 = readVal g h v)

/-- The dict-entry analogue of `DeepcopyValSpec`. -/
def DeepcopyEntriesSpec (fuel : Nat) : Prop :=
  ∀ h c d h2 c2 d2, deepcopyEntries (deepcopyVal fuel) h c d = some (h2, c2, d2) →
    heapBelow c h = true → dictBelow c d = true →
    c ≤ c2 ∧ heapBelow c2 h2 = true ∧ dictBelow c2 d2 = true ∧
    (∀ a, a < c → heapGet h2 a = heapGet h a) ∧
    (∀ g, readEntries (readVal g h2) d2 = readEntries (readVal g h) d)

/-- A one-object heap: the provider's static arguments template at cell 0. -/
def heap_c6 : Heap := [(0, [("a", .hstr "x")])]

/-- The heap after deep-copying the template of `heap_c6` to cell 1. -/
def heap_c6_after : Heap := [(1, [("a", .hstr "x")]), (0, [("a", .hstr "x")])]

/-- A substitution pass mutating the copy at cell 1 in place. -/
def ws_c6 : List (Nat × HDict) := [(1, [("a", .hstr "mutated")])]

/-- The heap after the second apply call deep-copies the template again
(to cell 2), following the first call's mutation of cell 1. -/
def heap_c6_second : Heap :=
  [(2, [("a", .hstr "x")]), (1, [("a", .hstr "mutated")]),
   (1, [("a", .hstr "x")]), (0, [("a", .hstr "x")])]

/-- A one-object heap: the caller's configuration dict at cell 0. -/
def heap_c7 : Heap := [(0, [("k", .hstr "v")])]

/-! ### Reduction lemmas for the Except monad -/

@[simp] theorem except_bind_ok {α β : Type} (a : α) (f : α → Except PyErr β) :
    (Except.ok a >>= f) = f a := rfl

@[simp] theorem except_bind_error {α β : Type} (e : PyErr) (f : α → Except PyErr β) :
    ((Except.error e : Except PyErr α) >>= f) = (Except.error e : Except PyErr β) := rfl

@[simp] theorem except_map_ok {α β : Type} (g : α → β) (a : α) :
    (g <$> (Except.ok a : Except PyErr α)) = (Except.ok (g a) : Except PyErr β) := rfl

@[simp] theorem except_map_error {α β : Type} (g : α → β) (e : PyErr) :
    (g <$> (Except.error e : Except PyErr α)) = (Except.error e : Except PyErr β) := rfl

@[simp] theorem except_pure_eq {α : Type} (a : α) :
    (pure a : Except PyErr α) = Except.ok a := rfl

/-! ### Dict lemmas -/

theorem dget_dset_self (d : Dict) (k : String) (v : PyVal) :
    dget (dset d k v) k = some v := by
  induction d with
  | nil => simp [dget, dset, alookup]
  | cons kv rest ih =>
    obtain ⟨k2, v2⟩ := kv
    by_cases h : k2 = k
    · subst h
      simp [dget, dset, alookup]
    · simp only [dset, if_neg h]
      simpa [dget, alookup, h] using ih

theorem dget_dset_ne (d : Dict) (k k2 : String) (v : PyVal) (h : k2 ≠ k) :
    dget (dset d k v) k2 = dget d k2 := by
  have hk : k ≠ k2 := fun hh => h hh.symm
  induction d with
  | nil => simp [dset, dget, alookup, hk]
  | cons kv rest ih =>
    obtain ⟨k3, v3⟩ := kv
    by_cases h3 : k3 = k
    · subst h3
      simp [dset, dget, alookup, hk]
    · by_cases h32 : k3 = k2
      · simp [dset, dget, alookup, h3, h32, h]
      · simp [dset, dget, alookup, h3, h32]
        simpa [dget] using ih

theorem dget_eq_none_of_contains_false (d : Dict) (k : String)
    (h : (dkeys d).contains k = false) : dget d k = none := by
  induction d with
  | nil => rfl
  | cons kv rest ih =>
    obtain ⟨k2, v2⟩ := kv
    simp only [dkeys, List.map_cons, List.contains_cons, Bool.or_eq_false_iff] at h
    have hne : k2 ≠ k := by
      intro hh
      subst hh
      simp at h
    simp only [dget, alookup, if_neg hne]
    exact ih h.2

theorem ofirst_none_right {α : Type} (a : Option α) : ofirst a none = a := by
  cases a <;> rfl

theorem ofirst_assoc {α : Type} (a b c : Option α) :
    ofirst (ofirst a b) c = ofirst a (ofirst b c) := by
  cases a <;> cases b <;> rfl

theorem dget_dupdate (other : Dict) (h : keysNodup (dkeys other) = true) :
    ∀ (d : Dict) (k : String),
      dget (dupdate d other) k = ofirst (dget other k) (dget d k) := by
  induction other with
  | nil =>
    intro d k
    simp [dupdate, dget, alookup, ofirst]
  | cons kv rest ih =>
    intro d k
    obtain ⟨k2, v2⟩ := kv
    simp only [dkeys, List.map_cons, keysNodup, Bool.and_eq_true, Bool.not_eq_true'] at h
    have hrest : keysNodup (dkeys rest) = true := h.2
    have hstep : dupdate d ((k2, v2) :: rest) = dupdate (dset d k2 v2) rest := rfl
    rw [hstep, ih hrest]
    by_cases hk : k2 = k
    · subst hk
      have hnone : dget rest k2 = none :=
        dget_eq_none_of_contains_false rest k2 h.1
      have hself : dget (dset d k2 v2) k2 = some v2 := dget_dset_self d k2 v2
      simp only [dget] at hnone hself
      simp [dget, alookup, hnone, hself, ofirst]
    · have hne : dget (dset d k2 v2) k = dget d k :=
        dget_dset_ne d k2 k v2 (fun hh => hk hh.symm)
      simp only [dget] at hne
      simp [dget, alookup, hk, hne]

/-! ### The secret-group merge computes the right-biased union -/

theorem merge_fold_lookup (store : Dict) (groups : List String)
    (hg : groups.all (group_ok store) = true) :
    ∀ acc : Dict, ∃ merged,
      groups.foldlM
        (fun acc g => do
          let gv ← secrets_for_group (.vdict store) g
          let gvc ← pyCopy gv
          dict_update_val acc gvc)
        acc = .ok merged ∧
      ∀ k, dget merged k = ofirst (lookup_in_groups store groups k) (dget acc k) := by
  induction groups with
  | nil =>
    intro acc
    refine ⟨acc, rfl, ?_⟩
    intro k
    simp [lookup_in_groups, ofirst]
  | cons g rest ih =>
    intro acc
    simp only [List.all_cons, Bool.and_eq_true] at hg
    have hgok : group_ok store g = true := hg.1
    have hstep :
        (do
          let gv ← secrets_for_group (.vdict store) g
          let gvc ← pyCopy gv
          dict_update_val acc gvc)
          = Except.ok (dupdate acc (group_entries store g)) := by
      simp only [secrets_for_group, except_bind_ok]
      cases hv : dget store g with
      | none =>
        simp [hv, pyCopy, dict_update_val, group_entries]
      | some v =>
        cases v with
        | vdict d => simp [hv, pyCopy, dict_update_val, group_entries]
        | vnone => simp [group_ok, hv] at hgok
        | vstr s => simp [group_ok, hv] at hgok
        | vnat n => simp [group_ok, hv] at hgok
    have hnodup : keysNodup (dkeys (group_entries store g)) = true := by
      unfold group_ok at hgok
      unfold group_entries
      cases hv : dget store g with
      | none => rfl
      | some v =>
        cases v with
        | vdict d => rw [hv] at hgok; exact hgok
        | vnone => rw [hv] at hgok; simp at hgok
        | vstr s => rw [hv] at hgok; simp at hgok
        | vnat n => rw [hv] at hgok; simp at hgok
    obtain ⟨merged, hfold, hlook⟩ := ih hg.2 (dupdate acc (group_entries store g))
    refine ⟨merged, ?_, ?_⟩
    · simpa [List.foldlM, hstep] using hfold
    · intro k
      rw [hlook k, dget_dupdate (group_entries store g) hnodup acc k]
      simp [lookup_in_groups, ofirst_assoc]

/-! ### Heap lemmas -/

theorem heapGet_heapSet_self (h : Heap) (a : Nat) (d : HDict) :
    heapGet (heapSet h a d) a = some d := by
  simp [heapGet, heapSet]

theorem heapGet_heapSet_ne (h : Heap) (a b : Nat) (d : HDict) (hne : a ≠ b) :
    heapGet (heapSet h a d) b = heapGet h b := by
  simp [heapGet, heapSet, hne]

theorem heapGet_mem : ∀ (h : Heap) (a : Nat) (d : HDict),
    heapGet h a = some d → (a, d) ∈ h := by
  intro h a d
  induction h with
  | nil => intro hh; simp [heapGet] at hh
  | cons ad rest ih =>
    intro hh
    obtain ⟨a2, d2⟩ := ad
    by_cases he : a2 = a
    · subst he
      simp only [heapGet, if_pos] at hh
      injection hh with h3
      subst h3
      exact List.mem_cons_self _ _
    · simp only [heapGet, if_neg he] at hh
      exact List.mem_cons_of_mem _ (ih hh)

theorem heapBelow_get {c : Nat} {h : Heap} {a : Nat} {d : HDict}
    (hb : heapBelow c h = true) (hget : heapGet h a = some d) :
    a < c ∧ dictBelow c d = true := by
  have hmem := heapGet_mem h a d hget
  simp only [heapBelow, List.all_eq_true] at hb
  have hx := hb (a, d) hmem
  simpa using hx

theorem valBelow_mono {c c2 : Nat} (hcc : c ≤ c2) :
    ∀ v, valBelow c v = true → valBelow c2 v = true := by
  intro v hv
  cases v with
  | hstr s => rfl
  | href a =>
    simp only [valBelow, decide_eq_true_eq] at hv ⊢
    omega

theorem dictBelow_mono {c c2 : Nat} (hcc : c ≤ c2) :
    ∀ d, dictBelow c d = true → dictBelow c2 d = true := by
  intro d hd
  simp only [dictBelow, List.all_eq_true] at hd ⊢
  exact fun kv hkv => valBelow_mono hcc kv.2 (hd kv hkv)

theorem heapBelow_mono {c c2 : Nat} (hcc : c ≤ c2) :
    ∀ h, heapBelow c h = true → heapBelow c2 h = true := by
  intro h hb
  simp only [heapBelow, List.all_eq_true, Bool.and_eq_true, decide_eq_true_eq] at hb ⊢
  intro ad had
  exact ⟨by have := (hb ad had).1; omega, dictBelow_mono hcc ad.2 (hb ad had).2⟩

theorem heapBelow_set {c : Nat} {h : Heap} {a : Nat} {d : HDict}
    (hb : heapBelow c h = true) (ha : a < c) (hd : dictBelow c d = true) :
    heapBelow c (heapSet h a d) = true := by
  simp only [heapSet, heapBelow, List.all_cons, Bool.and_eq_true, decide_eq_true_eq]
  refine ⟨⟨ha, hd⟩, ?_⟩
  simpa [heapBelow] using hb

/-- Snapshot congruence for dict entries: readers agreeing on every value
satisfying `p` agree on every dict whose values all satisfy `p`. -/
theorem readEntries_congr {rd rd2 : HVal → Option PureVal} {p : HVal → Bool}
    (hfn : ∀ v, p v = true → rd2 v = rd v) :
    ∀ d : HDict, d.all (fun kv => p kv.2) = true →
      readEntries rd2 d = readEntries rd d := by
  intro d
  induction d with
  | nil => intro _; rfl
  | cons kv rest ih =>
    intro hd
    obtain ⟨k, v⟩ := kv
    simp only [List.all_cons, Bool.and_eq_true] at hd
    simp only [readEntries, hfn v hd.1, ih hd.2]

/-- Snapshots only look below the frontier: two heaps that agree below `c`
give the same snapshot to any value bounded by `c`. -/
theorem read_agree (c : Nat) : ∀ (fuel : Nat) (h h2 : Heap),
    heapBelow c h = true → (∀ a, a < c → heapGet h2 a = heapGet h a) →
    ∀ v, valBelow c v = true → readVal fuel h2 v = readVal fuel h v := by
  intro fuel
  induction fuel with
  | zero =>
    intro h h2 _ _ v _
    cases v <;> rfl
  | succ fuel ih =>
    intro h h2 hb hagree v hv
    cases v with
    | hstr s => rfl
    | href a =>
      simp only [valBelow, decide_eq_true_eq] at hv
      have hga : heapGet h2 a = heapGet h a := hagree a hv
      simp only [readVal, hga]
      cases hget : heapGet h a with
      | none => rfl
      | some d =>
        obtain ⟨-, hdb⟩ := heapBelow_get hb hget
        have he : readEntries (readVal fuel h2) d = readEntries (readVal fuel h) d :=
          readEntries_congr (p := valBelow c) (ih h h2 hb hagree) d
            (by simpa [dictBelow] using hdb)
        simp only [he]

theorem applyWrites_agree_below (c : Nat) :
    ∀ (ws : List (Nat × HDict)) (h : Heap) (a : Nat),
      (∀ w ∈ ws, c ≤ w.1) → a < c →
      heapGet (applyWrites h ws) a = heapGet h a := by
  intro ws
  induction ws with
  | nil => intro h a _ _; rfl
  | cons w rest ih =>
    intro h a hws ha
    have hw : c ≤ w.1 := hws w (List.mem_cons_self _ _)
    have e : applyWrites h (w :: rest) = applyWrites (heapSet h w.1 w.2) rest := rfl
    rw [e, ih (heapSet h w.1 w.2) a (fun w2 hw2 => hws w2 (List.mem_cons_of_mem _ hw2)) ha,
      heapGet_heapSet_ne h w.1 a w.2 (by omega)]

theorem applyWrites_heapBelow (c : Nat) :
    ∀ (ws : List (Nat × HDict)) (h : Heap),
      heapBelow c h = true → (∀ w ∈ ws, w.1 < c ∧ dictBelow c w.2 = true) →
      heapBelow c (applyWrites h ws) = true := by
  intro ws
  induction ws with
  | nil => intro h hb _; exact hb
  | cons w rest ih =>
    intro h hb hws
    have hw := hws w (List.mem_cons_self _ _)
    have e : applyWrites h (w :: rest) = applyWrites (heapSet h w.1 w.2) rest := rfl
    rw [e]
    exact ih (heapSet h w.1 w.2) (heapBelow_set hb hw.1 hw.2)
      (fun w2 hw2 => hws w2 (List.mem_cons_of_mem _ hw2))

/-! ### deepcopy is a faithful, fresh copy -/

theorem deepcopyEntries_spec_of_val (fuel : Nat) (hval : DeepcopyValSpec fuel) :
    DeepcopyEntriesSpec fuel := by
  intro h c d
  induction d generalizing h c with
  | nil =>
    intro h2 c2 d2 hcopy hb hd
    simp only [deepcopyEntries, Option.some.injEq, Prod.mk.injEq] at hcopy
    obtain ⟨rfl, rfl, rfl⟩ := hcopy
    exact ⟨Nat.le_refl c, hb, hd, fun a _ => rfl, fun g => rfl⟩
  | cons kv rest ih =>
    intro h2 c2 d2 hcopy hb hd
    obtain ⟨k, v⟩ := kv
    simp only [dictBelow, List.all_cons, Bool.and_eq_true] at hd
    simp only [deepcopyEntries] at hcopy
    cases hcv : deepcopyVal fuel h c v with
    | none => rw [hcv] at hcopy; simp at hcopy
    | some res =>
      obtain ⟨hV, cV, vc⟩ := res
      rw [hcv] at hcopy
      dsimp only at hcopy
      cases hcr : deepcopyEntries (deepcopyVal fuel) hV cV rest with
      | none => rw [hcr] at hcopy; simp at hcopy
      | some res2 =>
        obtain ⟨h3, c3, rest2⟩ := res2
        rw [hcr] at hcopy
        simp only [Option.some.injEq, Prod.mk.injEq] at hcopy
        obtain ⟨rfl, rfl, rfl⟩ := hcopy
        obtain ⟨hcc, hbV, hvc, hagV, hreadV⟩ := hval h c v hV cV vc hcv hb hd.1
        have hdrest : dictBelow cV rest = true :=
          dictBelow_mono hcc rest (by simpa [dictBelow] using hd.2)
        obtain ⟨hcc2, hb3, hrest2, hag3, hreadE⟩ := ih hV cV h3 c3 rest2 hcr hbV hdrest
        refine ⟨Nat.le_trans hcc hcc2, hb3, ?_, ?_, ?_⟩
        · simp only [dictBelow, List.all_cons, Bool.and_eq_true]
          exact ⟨valBelow_mono hcc2 vc hvc, by simpa [dictBelow] using hrest2⟩
        · intro a ha
          rw [hag3 a (Nat.lt_of_lt_of_le ha hcc), hagV a ha]
        · intro g
          have h1 : readVal g h3 vc = readVal g h v := by
            have e1 : readVal g h3 vc = readVal g hV vc :=
              read_agree cV g hV h3 hbV hag3 vc hvc
            rw [e1, hreadV g]
          have h2 : readEntries (readVal g h3) rest2 = readEntries (readVal g h) rest := by
            have e2 : readEntries (readVal g hV) rest = readEntries (readVal g h) rest :=
              readEntries_congr (p := valBelow c) (read_agree c g h hV hb hagV) rest hd.2
            rw [hreadE g, e2]
          simp only [readEntries, h1, h2]

theorem deepcopy_spec : ∀ fuel, DeepcopyValSpec fuel := by
  intro fuel
  induction fuel with
  | zero =>
    intro h c v h2 c2 v2 hcopy hb hv
    cases v with
    | hstr s =>
      simp only [deepcopyVal, Option.some.injEq, Prod.mk.injEq] at hcopy
      obtain ⟨rfl, rfl, rfl⟩ := hcopy
      exact ⟨Nat.le_refl c, hb, rfl, fun a _ => rfl, fun g => by cases g <;> rfl⟩
    | href a => simp [deepcopyVal] at hcopy
  | succ fuel ih =>
    intro h c v h2 c2 v2 hcopy hb hv
    cases v with
    | hstr s =>
      simp only [deepcopyVal, Option.some.injEq, Prod.mk.injEq] at hcopy
      obtain ⟨rfl, rfl, rfl⟩ := hcopy
      exact ⟨Nat.le_refl c, hb, rfl, fun a _ => rfl, fun g => by cases g <;> rfl⟩
    | href a =>
      simp only [valBelow, decide_eq_true_eq] at hv
      simp only [deepcopyVal] at hcopy
      cases hget : heapGet h a with
      | none => rw [hget] at hcopy; simp at hcopy
      | some d =>
        rw [hget] at hcopy
        dsimp only at hcopy
        cases hcd : deepcopyEntries (deepcopyVal fuel) h c d with
        | none => rw [hcd] at hcopy; simp at hcopy
        | some res =>
          obtain ⟨h3, c3, d3⟩ := res
          rw [hcd] at hcopy
          simp only [Option.some.injEq, Prod.mk.injEq] at hcopy
          obtain ⟨rfl, rfl, rfl⟩ := hcopy
          obtain ⟨-, hdb⟩ := heapBelow_get hb hget
          obtain ⟨hcc, hb3, hd3, hag, hread⟩ :=
            deepcopyEntries_spec_of_val fuel ih h c d h3 c3 d3 hcd hb hdb
          refine ⟨Nat.le_succ_of_le hcc, ?_, ?_, ?_, ?_⟩
          · exact heapBelow_set (heapBelow_mono (Nat.le_succ c3) h3 hb3)
              (Nat.lt_succ_self c3) (dictBelow_mono (Nat.le_succ c3) d3 hd3)
          · simp only [valBelow, decide_eq_true_eq]
            omega
          · intro a2 ha2
            have hne : c3 ≠ a2 := by omega
            rw [heapGet_heapSet_ne h3 c3 a2 d3 hne, hag a2 ha2]
          · intro g
            cases g with
            | zero => rfl
            | succ g =>
              simp only [readVal, heapGet_heapSet_self, hget]
              have e1 : readEntries (readVal g (heapSet h3 c3 d3)) d3
                  = readEntries (readVal g h3) d3 := by
                refine readEntries_congr (p := valBelow c3) ?_ d3
                  (by simpa [dictBelow] using hd3)
                intro v2 hv2
                refine read_agree c3 g h3 (heapSet h3 c3 d3) hb3 ?_ v2 hv2
                intro a2 ha2
                exact heapGet_heapSet_ne h3 c3 a2 d3 (by omega)
              simp only [e1, hread g]

/-! ### C4 — validate checks `name` then `provider`, raising InvalidControl -/

/-- C4: `validate_python_control` performs its structural checks in order:
a descriptor without `name` is rejected with InvalidControl; a descriptor
with a `name` but without `provider` is rejected with InvalidControl whose
message references the control's name. -/
theorem validate_checks_name_then_provider (imp : Importer) (control : Control) :
    (control.name = none →
      validate_python_control imp control
        = .error (.invalidControl "A control must have a name property")) ∧
    (∀ n, control.name = some n → control.provider = none →
      validate_python_control imp control
        = .error (.invalidControl ("Control " ++ n ++ " must have a provider property"))) := by
  constructor
  · intro h
    simp [validate_python_control, h]
  · intro n hn hp
    simp [validate_python_control, hn, hp]

/-- Witness for C4 at two concrete descriptors. -/
theorem validate_checks_name_then_provider_witness :
    validate_python_control imp_os ⟨none, none, none⟩
      = .error (.invalidControl "A control must have a name property") ∧
    validate_python_control imp_os ⟨some "c", none, none⟩
      = .error (.invalidControl ("Control " ++ "c" ++ " must have a provider property")) :=
  ⟨(validate_checks_name_then_provider imp_os ⟨none, none, none⟩).1 rfl,
   (validate_checks_name_then_provider imp_os ⟨some "c", none, none⟩).2 "c" rfl rfl⟩

/-! ### C1 — validate reads the top-level `module` key, not `provider.module` -/

/-- C1: the module-path check of `validate_python_control` reads the
descriptor's top-level `module` key (`control.get("module")`), not
`provider["module"]` which `load_func` dispatches on.  A descriptor whose
provider carries a resolvable module is rejected with InvalidActivity, and a
descriptor whose provider has no module at all passes validation when a
resolvable top-level `module` key is present. -/
theorem validate_reads_toplevel_module_key :
    validate_python_control imp_os control_provider_module_only
      = .error (.invalidActivity "Control c must have a module path") ∧
    validate_python_control imp_os control_toplevel_module_only = .ok () := by
  constructor <;> rfl

/-! ### C2 — unrecognized level: TypeError, not a silent no-op -/

/-- C2 counterexample: for a fully valid control whose module resolves,
`apply_python_control` with the unrecognized level `unknown-level` does not
no-op silently: `_level_mapping.get` yields no function name and
`getattr(mod, None, None)` raises TypeError. -/
theorem apply_unknown_level_raises_typeerror :
    apply_python_control imp_hooks subst_id "unknown-level" control_hooks
      .vnone .vnone .vnone .vnone
      = .error (.typeError "attribute name must be string") := by
  rfl

/-- C2 as amended: with an unrecognized level, `apply_python_control` is a
silent no-op only when the provider's module cannot be imported; when the
module resolves, the attribute lookup with a non-string name raises
TypeError. -/
theorem apply_unrecognized_level_behavior (imp : Importer) (substitute : Subst)
    (level : String) (control : Control) (provider : Provider) (m : String)
    (context state configuration secrets : PyVal)
    (hp : control.provider = some provider) (hm : provider.module = some m)
    (hlevel : level_func_name level = none) :
    (imp m = .notFound →
      apply_python_control imp substitute level control context state configuration secrets
        = .ok none) ∧
    (∀ mod, imp m = .found mod →
      apply_python_control imp substitute level control context state configuration secrets
        = .error (.typeError "attribute name must be string")) := by
  constructor
  · intro h
    simp [apply_python_control, hp, load_func, hm, h, hlevel]
  · intro mod h
    simp [apply_python_control, hp, load_func, hm, h, hlevel]

/-- Witness for C2's amended theorem: both branches at concrete inputs. -/
theorem apply_unrecognized_level_behavior_witness :
    apply_python_control (fun _ => .notFound) subst_id "unknown-level" control_hooks
      .vnone .vnone .vnone .vnone = .ok none ∧
    apply_python_control imp_hooks subst_id "unknown-level" control_hooks
      .vnone .vnone .vnone .vnone
      = .error (.typeError "attribute name must be string") :=
  ⟨(apply_unrecognized_level_behavior (fun _ => .notFound) subst_id "unknown-level"
      control_hooks ⟨some "mod.hooks", none, none⟩ "mod.hooks"
      .vnone .vnone .vnone .vnone rfl rfl rfl).1 rfl,
   (apply_unrecognized_level_behavior imp_hooks subst_id "unknown-level"
      control_hooks ⟨some "mod.hooks", none, none⟩ "mod.hooks"
      .vnone .vnone .vnone .vnone rfl rfl rfl).2 mod_hooks rfl⟩

/-! ### C5 — unresolvable module or missing hook: silent no-op -/

/-- C5: when the hook is unreachable — the provider's module does not import,
or it imports but lacks the target attribute — `initialize_control`,
`cleanup_control` and `apply_python_control` (at any recognized level) all
return successfully without raising; no hook behaviour is consulted. -/
theorem missing_module_or_hook_is_noop (imp : Importer) (substitute : Subst)
    (control : Control) (provider : Provider) (m : String)
    (context state configuration secrets : PyVal)
    (hp : control.provider = some provider) (hm : provider.module = some m) :
    (hook_absent imp m "configure_control" →
      initialize_control imp control configuration secrets = .ok ()) ∧
    (hook_absent imp m "cleanup_control" →
      cleanup_control imp control = .ok ()) ∧
    (∀ level fn, level_func_name level = some fn → hook_absent imp m fn →
      apply_python_control imp substitute level control context state configuration secrets
        = .ok none) := by
  refine ⟨?_, ?_, ?_⟩
  · rintro (h | ⟨mod, hfound, hattr⟩)
    · simp [initialize_control, load_func, hp, hm, h]
    · simp [initialize_control, load_func, hp, hm, hfound, hattr]
  · rintro (h | ⟨mod, hfound, hattr⟩)
    · simp [cleanup_control, load_func, hp, hm, h]
    · simp [cleanup_control, load_func, hp, hm, hfound, hattr]
  · rintro level fn hlevel (h | ⟨mod, hfound, hattr⟩)
    · simp [apply_python_control, load_func, hp, hm, h, hlevel]
    · simp [apply_python_control, load_func, hp, hm, hfound, hattr, hlevel]

/-- Witness for C5: an importable module exposing no hooks, and a module
path that does not import at all. -/
theorem missing_module_or_hook_is_noop_witness :
    initialize_control imp_os control_provider_module_only .vnone .vnone = .ok () ∧
    cleanup_control imp_os control_provider_module_only = .ok () ∧
    apply_python_control imp_os subst_id "activity-before" control_provider_module_only
      .vnone .vnone .vnone .vnone = .ok none ∧
    initialize_control (fun _ => .notFound) control_provider_module_only .vnone .vnone
      = .ok () := by
  refine ⟨?_, ?_, ?_, ?_⟩
  · exact (missing_module_or_hook_is_noop imp_os subst_id control_provider_module_only
      ⟨some "os", none, none⟩ "os" .vnone .vnone .vnone .vnone rfl rfl).1
      (Or.inr ⟨[], rfl, rfl⟩)
  · exact (missing_module_or_hook_is_noop imp_os subst_id control_provider_module_only
      ⟨some "os", none, none⟩ "os" .vnone .vnone .vnone .vnone rfl rfl).2.1
      (Or.inr ⟨[], rfl, rfl⟩)
  · exact (missing_module_or_hook_is_noop imp_os subst_id control_provider_module_only
      ⟨some "os", none, none⟩ "os" .vnone .vnone .vnone .vnone rfl rfl).2.2
      "activity-before" "before_activity_control" rfl (Or.inr ⟨[], rfl, rfl⟩)
  · exact (missing_module_or_hook_is_noop (fun _ => .notFound) subst_id
      control_provider_module_only ⟨some "os", none, none⟩ "os"
      .vnone .vnone .vnone .vnone rfl rfl).1 (Or.inl rfl)

/-! ### C8 — initialize and cleanup call their hooks with exact arguments -/

/-- C8: when the module exposes the relevant hook, `initialize_control`
calls `configure_control` with exactly the two positional arguments
`(configuration, secrets)` and no keywords, `cleanup_control` calls
`cleanup_control` with no arguments at all, and in both cases the operation's
result is exactly the hook's result — in particular any error the hook
raises propagates uncaught. -/
theorem hooks_called_with_exact_arguments (imp : Importer) (control : Control)
    (provider : Provider) (m : String) (mod : PyModule)
    (configuration secrets : PyVal) (f g : PyFunc)
    (hp : control.provider = some provider) (hm : provider.module = some m)
    (hfound : imp m = .found mod) :
    (alookup mod "configure_control" = some f →
      initialize_control imp control configuration secrets
        = (f.run [configuration, secrets] []).map (fun _ => ())) ∧
    (∀ e, alookup mod "configure_control" = some f →
      f.run [configuration, secrets] [] = .error e →
      initialize_control imp control configuration secrets = .error e) ∧
    (alookup mod "cleanup_control" = some g →
      cleanup_control imp control = (g.run [] []).map (fun _ => ())) ∧
    (∀ e, alookup mod "cleanup_control" = some g → g.run [] [] = .error e →
      cleanup_control imp control = .error e) := by
  refine ⟨?_, ?_, ?_, ?_⟩
  · intro hattr
    cases hrun : f.run [configuration, secrets] [] with
    | ok v => simp [initialize_control, load_func, hp, hm, hfound, hattr, hrun, Except.map]
    | error e => simp [initialize_control, load_func, hp, hm, hfound, hattr, hrun, Except.map]
  · intro e hattr hrun
    simp [initialize_control, load_func, hp, hm, hfound, hattr, hrun]
  · intro hattr
    cases hrun : g.run [] [] with
    | ok v => simp [cleanup_control, load_func, hp, hm, hfound, hattr, hrun, Except.map]
    | error e => simp [cleanup_control, load_func, hp, hm, hfound, hattr, hrun, Except.map]
  · intro e hattr hrun
    simp [cleanup_control, load_func, hp, hm, hfound, hattr, hrun]

/-- Witness for C8: a module whose `configure_control` succeeds and whose
`cleanup_control` raises. -/
theorem hooks_called_with_exact_arguments_witness :
    initialize_control imp_lifecycle control_lifecycle .vnone .vnone
      = (hook_ok.run [.vnone, .vnone] []).map (fun _ => ()) ∧
    cleanup_control imp_lifecycle control_lifecycle = .error (.otherError "boom") := by
  constructor
  · exact (hooks_called_with_exact_arguments imp_lifecycle control_lifecycle
      ⟨some "life.mod", none, none⟩ "life.mod" mod_lifecycle .vnone .vnone
      hook_ok hook_raise rfl rfl rfl).1 rfl
  · exact (hooks_called_with_exact_arguments imp_lifecycle control_lifecycle
      ⟨some "life.mod", none, none⟩ "life.mod" mod_lifecycle .vnone .vnone
      hook_ok hook_raise rfl rfl rfl).2.2.2 (.otherError "boom") rfl rfl

/-! ### C3 — secrets injection is the right-biased union of the groups -/

/-- C3: when the provider declares a `secrets` group list and the hook's
signature declares a `secrets` parameter, the assembled keyword arguments —
exactly what `apply_python_control` expands into the hook call — carry a
`secrets` entry equal to the union of the named groups of the caller's store
in which later groups overwrite earlier ones on key collision
(`lookup_in_groups`), regardless of any `secrets` key coming from the static
arguments template or from substitution. -/
theorem secrets_injection_right_biased_union (substitute : Subst)
    (provider : Provider) (f : PyFunc) (state : PyVal) (cd store : Dict)
    (groups : List String)
    (hsec : provider.secrets = some groups)
    (hparam : f.params.contains "secrets" = true)
    (hg : groups.all (group_ok store) = true) :
    ∃ merged,
      merge_secret_groups (.vdict store) groups = .ok merged ∧
      (∀ k, dget merged k = lookup_in_groups store groups k) ∧
      ∃ assembled,
        assemble_arguments substitute provider f state (.vdict cd) (.vdict store)
          = .ok assembled ∧
        dget assembled.args "secrets" = some (.vdict merged) := by
  obtain ⟨merged, hfold, hlook⟩ := merge_fold_lookup store groups hg []
  have hmerge : merge_secret_groups (.vdict store) groups = .ok merged := hfold
  have hlook2 : ∀ k, dget merged k = lookup_in_groups store groups k := by
    intro k
    rw [hlook k]
    have : dget [] k = none := rfl
    rw [this, ofirst_none_right]
  refine ⟨merged, hmerge, hlook2, ?_⟩
  have hsne : ("secrets" : String) ≠ "configuration" := by decide
  have hstne : ("secrets" : String) ≠ "state" := by decide
  have hparam2 : "secrets" ∈ f.params := by simpa using hparam
  by_cases hc : "configuration" ∈ f.params <;> by_cases hst : "state" ∈ f.params <;>
    simp [assemble_arguments, hsec, hmerge, pyCopy, hparam2, hc, hst,
      dget_dset_self, dget_dset_ne _ _ _ _ hsne, dget_dset_ne _ _ _ _ hstne]

/-- Witness for C3: the spec's two-group scenario, with a stale `secrets`
entry in the static arguments template that the injection overrides. -/
theorem secrets_injection_right_biased_union_witness :
    ∃ merged,
      merge_secret_groups (.vdict store_two_groups) ["group-a", "group-b"] = .ok merged ∧
      (∀ k, dget merged k = lookup_in_groups store_two_groups ["group-a", "group-b"] k) ∧
      ∃ assembled,
        assemble_arguments subst_id
          ⟨some "sec.mod", some [("secrets", .vstr "stale")], some ["group-a", "group-b"]⟩
          hook_secrets_param .vnone (.vdict []) (.vdict store_two_groups)
          = .ok assembled ∧
        dget assembled.args "secrets" = some (.vdict merged) :=
  secrets_injection_right_biased_union subst_id
    ⟨some "sec.mod", some [("secrets", .vstr "stale")], some ["group-a", "group-b"]⟩
    hook_secrets_param .vnone [] store_two_groups ["group-a", "group-b"]
    rfl rfl (by decide)

/-! ### C9 — None stores at injection points -/

/-- C9 counterexample: an apply call whose provider declares a `secrets`
list — the empty one — whose hook declares a `secrets` parameter, and whose
caller passes secrets=None, completes without raising: the loop body never
touches the None store and the hook is called with an injected empty
mapping. -/
theorem apply_empty_secret_groups_none_store_ok :
    apply_python_control imp_wants_secrets subst_id "activity-before"
      control_empty_secret_groups .vnone .vnone .vnone .vnone = .ok (some .vnone) := by
  rfl

/-- C9 as amended: with configuration=None, a hook declaring `configuration`
makes apply raise the AttributeError from `None.copy()` (stated here for
providers with no declared secret groups, where no earlier injection step
can intervene); with secrets=None and a NONEMPTY declared group list, a hook
declaring `secrets` makes apply raise the AttributeError from `None.get` —
only the empty group list avoids touching the None store. -/
theorem apply_none_stores_raise (imp : Importer) (substitute : Subst)
    (level fn : String) (control : Control) (provider : Provider) (m : String)
    (mod : PyModule) (f : PyFunc) (context state configuration secrets : PyVal)
    (hp : control.provider = some provider) (hm : provider.module = some m)
    (hfound : imp m = .found mod) (hlevel : level_func_name level = some fn)
    (hattr : alookup mod fn = some f) :
    (provider.secrets = none → f.params.contains "configuration" = true →
      apply_python_control imp substitute level control context state .vnone secrets
        = .error (.attributeError "object has no attribute copy")) ∧
    (∀ g gs, provider.secrets = some (g :: gs) → f.params.contains "secrets" = true →
      apply_python_control imp substitute level control context state configuration .vnone
        = .error (.attributeError "object has no attribute get")) := by
  constructor
  · intro hps hcfg
    have hcfg2 : "configuration" ∈ f.params := by simpa using hcfg
    simp [apply_python_control, load_func, hp, hm, hfound, hlevel, hattr,
      assemble_arguments, hps, hcfg2, pyCopy]
  · intro g gs hps hsp
    have hsp2 : "secrets" ∈ f.params := by simpa using hsp
    simp [apply_python_control, load_func, hp, hm, hfound, hlevel, hattr,
      assemble_arguments, hps, hsp2, merge_secret_groups, List.foldlM, secrets_for_group]

/-- Witness for C9's amended theorem: both raising scenarios at concrete
inputs. -/
theorem apply_none_stores_raise_witness :
    apply_python_control imp_wants_config subst_id "activity-before" control_wants_config
      .vnone .vnone .vnone .vnone
      = .error (.attributeError "object has no attribute copy") ∧
    apply_python_control imp_wants_secrets subst_id "activity-before" control_two_secret_groups
      .vnone .vnone .vnone .vnone
      = .error (.attributeError "object has no attribute get") := by
  constructor
  · exact (apply_none_stores_raise imp_wants_config subst_id "activity-before"
      "before_activity_control" control_wants_config ⟨some "cfg.mod", none, none⟩
      "cfg.mod" mod_wants_config hook_config_param .vnone .vnone .vnone .vnone
      rfl rfl rfl rfl rfl).1 rfl rfl
  · exact (apply_none_stores_raise imp_wants_secrets subst_id "activity-before"
      "before_activity_control" control_two_secret_groups
      ⟨some "sec.mod", some [("secrets", .vstr "stale")], some ["group-a", "group-b"]⟩
      "sec.mod" mod_wants_secrets hook_secrets_param .vnone .vnone .vnone .vnone
      rfl rfl rfl rfl rfl).2 "group-a" ["group-b"] rfl rfl

/-! ### C10 — substitution runs exactly when a store is truthy -/

theorem foldlM_ok_id {α : Type} (l : List α) :
    ∀ acc : Dict,
      List.foldlM (fun acc _ => (Except.ok acc : Except PyErr Dict)) acc l = .ok acc := by
  induction l with
  | nil => intro acc; rfl
  | cons g rest ih => intro acc; simpa [List.foldlM] using ih acc

theorem merge_secret_groups_empty_store (groups : List String) :
    merge_secret_groups (.vdict []) groups = .ok [] := by
  have hfun : (fun (acc : Dict) (g : String) => do
      let gv ← secrets_for_group (.vdict []) g
      let gvc ← pyCopy gv
      dict_update_val acc gvc)
      = fun (acc : Dict) (_ : String) => (Except.ok acc : Except PyErr Dict) := by
    funext acc g
    simp [secrets_for_group, dget, alookup, pyCopy, dict_update_val, dupdate]
  unfold merge_secret_groups
  rw [hfun]
  exact foldlM_ok_id groups []

/-- Inversion for a successful Except bind. -/
theorem bind_eq_ok {α β : Type} {m : Except PyErr α} {k : α → Except PyErr β} {b : β}
    (h : (m >>= k) = .ok b) : ∃ a, m = .ok a ∧ k a = .ok b := by
  cases m with
  | error e => simp at h
  | ok a => exact ⟨a, rfl, by simpa using h⟩

/-- C10: the substitution pass of `apply_python_control` runs exactly when
`configuration` or `secrets` is truthy; with an empty mapping supplied for
both, the pass is skipped and the assembled arguments keep the provider's
static template entries verbatim at every key other than the three injected
ones. -/
theorem substitution_runs_iff_truthy (substitute : Subst) (provider : Provider)
    (f : PyFunc) (state configuration secrets : PyVal) :
    (∀ assembled,
      assemble_arguments substitute provider f state configuration secrets = .ok assembled →
      assembled.substituted = (truthy configuration || truthy secrets)) ∧
    (∃ assembled,
      assemble_arguments substitute provider f state (.vdict []) (.vdict []) = .ok assembled ∧
      assembled.substituted = false ∧
      ∀ k, k ≠ "secrets" → k ≠ "configuration" → k ≠ "state" →
        dget assembled.args k = dget (provider.arguments.getD []) k) := by
  constructor
  · intro assembled h
    unfold assemble_arguments at h
    repeat' split at h
    all_goals (repeat obtain ⟨_, _, h⟩ := bind_eq_ok h)
    all_goals (
      simp only [except_pure_eq, Except.ok.injEq] at h
      subst h
      rfl)
  · rcases hps : provider.secrets with _ | groups <;>
      by_cases hs : "secrets" ∈ f.params <;>
      by_cases hc : "configuration" ∈ f.params <;>
      by_cases hst : "state" ∈ f.params <;>
      simp [assemble_arguments, hps, hs, hc, hst, pyCopy, truthy,
        merge_secret_groups_empty_store] <;>
      (intro k hks hkc hkst
       simp [dget_dset_ne _ _ _ _ hks, dget_dset_ne _ _ _ _ hkc,
         dget_dset_ne _ _ _ _ hkst])

/-- Witness for C10: a nonempty template with a substitutable-looking entry,
empty stores, all three injections active. -/
theorem substitution_runs_iff_truthy_witness :
    (∀ assembled,
      assemble_arguments subst_id
        ⟨some "sec.mod", some [("u", .vstr "ref")], some ["g"]⟩
        ⟨["context", "secrets", "configuration", "state"], fun _ _ => .ok .vnone⟩
        .vnone (.vdict [("c", .vstr "1")]) (.vdict []) = .ok assembled →
      assembled.substituted
        = (truthy (.vdict [("c", .vstr "1")]) || truthy (.vdict []))) ∧
    (∃ assembled,
      assemble_arguments subst_id
        ⟨some "sec.mod", some [("u", .vstr "ref")], some ["g"]⟩
        ⟨["context", "secrets", "configuration", "state"], fun _ _ => .ok .vnone⟩
        .vnone (.vdict []) (.vdict []) = .ok assembled ∧
      assembled.substituted = false ∧
      ∀ k, k ≠ "secrets" → k ≠ "configuration" → k ≠ "state" →
        dget assembled.args k
          = dget ((⟨some "sec.mod", some [("u", .vstr "ref")], some ["g"]⟩ :
              Provider).arguments.getD []) k) :=
  substitution_runs_iff_truthy subst_id
    ⟨some "sec.mod", some [("u", .vstr "ref")], some ["g"]⟩
    ⟨["context", "secrets", "configuration", "state"], fun _ _ => .ok .vnone⟩
    .vnone (.vdict [("c", .vstr "1")]) (.vdict [])

/-! ### C6 — deep copy isolates the static arguments template -/

/-- C6: the `deepcopy(provider.get("arguments", {}))` step of
`apply_python_control` isolates the provider's static template.  With the
template rooted below the allocation frontier and the substitution pass
mutating only cells of the fresh copy (addresses in `[ctr, c1)`, with values
referencing existing objects), the template's snapshot is unchanged after the
first call, and a second call's copy reads equal to the original template —
no mutation leaks between calls. -/
theorem deepcopy_isolates_template (fuel : Nat) (h : Heap) (ctr argsAddr : Nat)
    (h1 : Heap) (c1 copyAddr : Nat) (ws : List (Nat × HDict))
    (hb : heapBelow ctr h = true) (ha : argsAddr < ctr)
    (hcopy : deepcopy_arguments fuel h ctr argsAddr = some (h1, c1, copyAddr))
    (hws : ∀ w ∈ ws, ctr ≤ w.1 ∧ w.1 < c1 ∧ dictBelow c1 w.2 = true) :
    (∀ g, readVal g (applyWrites h1 ws) (.href argsAddr)
        = readVal g h (.href argsAddr)) ∧
    (∀ h2 c2 copy2, deepcopy_arguments fuel (applyWrites h1 ws) c1 argsAddr
        = some (h2, c2, copy2) →
      ∀ g, readVal g h2 (.href copy2) = readVal g h (.href argsAddr)) := by
  have hvb : valBelow ctr (.href argsAddr) = true := by
    simp [valBelow, ha]
  unfold deepcopy_arguments at hcopy
  cases hdc : deepcopyVal fuel h ctr (.href argsAddr) with
  | none => rw [hdc] at hcopy; simp at hcopy
  | some res =>
    obtain ⟨h1x, c1x, v1⟩ := res
    rw [hdc] at hcopy
    cases v1 with
    | hstr s => simp at hcopy
    | href a2 =>
      simp only [Option.some.injEq, Prod.mk.injEq] at hcopy
      obtain ⟨rfl, rfl, rfl⟩ := hcopy
      obtain ⟨hcc, hb1, hv1, hag1, hread1⟩ :=
        deepcopy_spec fuel h ctr (.href argsAddr) h1x c1x (.href a2) hdc hb hvb
      have hA : ∀ a, a < ctr → heapGet (applyWrites h1x ws) a = heapGet h a := by
        intro a ha2
        rw [applyWrites_agree_below ctr ws h1x a (fun w hw => (hws w hw).1) ha2,
          hag1 a ha2]
      have conjA : ∀ g, readVal g (applyWrites h1x ws) (.href argsAddr)
          = readVal g h (.href argsAddr) :=
        fun g => read_agree ctr g h (applyWrites h1x ws) hb hA _ hvb
      refine ⟨conjA, ?_⟩
      intro h2 c2 copy2 hcopy2 g
      have hb2 : heapBelow c1x (applyWrites h1x ws) = true :=
        applyWrites_heapBelow c1x ws h1x hb1
          (fun w hw => ⟨(hws w hw).2.1, (hws w hw).2.2⟩)
      have hvb2 : valBelow c1x (.href argsAddr) = true := by
        simp only [valBelow, decide_eq_true_eq]
        omega
      unfold deepcopy_arguments at hcopy2
      cases hdc2 : deepcopyVal fuel (applyWrites h1x ws) c1x (.href argsAddr) with
      | none => rw [hdc2] at hcopy2; simp at hcopy2
      | some res2 =>
        obtain ⟨h2x, c2x, v2⟩ := res2
        rw [hdc2] at hcopy2
        cases v2 with
        | hstr s => simp at hcopy2
        | href a3 =>
          simp only [Option.some.injEq, Prod.mk.injEq] at hcopy2
          obtain ⟨rfl, rfl, rfl⟩ := hcopy2
          obtain ⟨-, -, -, -, hread2⟩ :=
            deepcopy_spec fuel (applyWrites h1x ws) c1x (.href argsAddr)
              h2x c2x (.href a3) hdc2 hb2 hvb2
          rw [hread2 g, conjA g]

/-- Witness for C6: a one-entry template at cell 0 copied to cell 1, a
substitution overwriting the copy, and a second copy to cell 2 — both the
template after mutation and the second copy still read as the original. -/
theorem deepcopy_isolates_template_witness :
    (readVal 1 (applyWrites heap_c6_after ws_c6) (.href 0)
      = readVal 1 heap_c6 (.href 0)) ∧
    readVal 1 heap_c6_second (.href 2) = readVal 1 heap_c6 (.href 0) := by
  have hth := deepcopy_isolates_template 1 heap_c6 1 0 heap_c6_after 2 1 ws_c6
    (by decide) (by decide) rfl (by decide)
  exact ⟨hth.1 1, hth.2 heap_c6_second 3 2 rfl 1⟩

/-! ### C7 — the configuration injection is full and isolated -/

/-- C7: when the resolved hook declares a `configuration` parameter, the
assembled keyword arguments carry the caller's configuration whole — the
very same mapping, not a filtered subset — and, on the heap,
`configuration.copy()` allocates a fresh top-level cell sharing the
original's entries, so overwriting the received copy's top level leaves the
caller's configuration cell untouched. -/
theorem configuration_injection_full_and_isolated (substitute : Subst)
    (provider : Provider) (f : PyFunc) (state : PyVal) (cd : Dict) (secrets : PyVal)
    (hparam : f.params.contains "configuration" = true)
    (hh : Heap) (ctr ca : Nat) (hcd : HDict)
    (hbh : heapBelow ctr hh = true) (hget : heapGet hh ca = some hcd) :
    (∀ assembled,
      assemble_arguments substitute provider f state (.vdict cd) secrets = .ok assembled →
      dget assembled.args "configuration" = some (.vdict cd)) ∧
    (config_shallow_copy hh ctr ca = some (heapSet hh ctr hcd, ctr + 1, ctr) ∧
      heapGet (heapSet hh ctr hcd) ctr = some hcd ∧
      ∀ d2, heapGet (heapSet (heapSet hh ctr hcd) ctr d2) ca = some hcd) := by
  constructor
  · intro assembled h
    have hparam2 : "configuration" ∈ f.params := by simpa using hparam
    have hcne : ("configuration" : String) ≠ "state" := by decide
    unfold assemble_arguments at h
    repeat' split at h
    all_goals (
      repeat obtain ⟨_, _, h⟩ := bind_eq_ok h
      try simp only [pyCopy, except_pure_eq, Except.ok.injEq] at *
      subst_vars
      simp [dget_dset_self, dget_dset_ne _ _ _ _ hcne])
  · have hca : ca < ctr := (heapBelow_get hbh hget).1
    have hne : ctr ≠ ca := by omega
    refine ⟨?_, ?_, ?_⟩
    · simp [config_shallow_copy, hget]
    · exact heapGet_heapSet_self hh ctr hcd
    · intro d2
      rw [heapGet_heapSet_ne _ _ _ _ hne, heapGet_heapSet_ne _ _ _ _ hne, hget]

/-- Witness for C7: a concrete hook wanting `configuration`, a one-entry
configuration dict, and a top-level overwrite of the copy. -/
theorem configuration_injection_full_and_isolated_witness :
    dget [("configuration", PyVal.vdict [("c1", .vstr "v")])] "configuration"
      = some (.vdict [("c1", .vstr "v")]) ∧
    heapGet (heapSet (heapSet heap_c7 1 [("k", .hstr "v")]) 1 [("k", .hstr "w")]) 0
      = some [("k", .hstr "v")] := by
  constructor
  · exact (configuration_injection_full_and_isolated subst_id
      ⟨some "cfg.mod", none, none⟩ hook_config_param .vnone [("c1", .vstr "v")] .vnone
      rfl heap_c7 1 0 [("k", .hstr "v")] (by decide) rfl).1
      ⟨true, [("configuration", .vdict [("c1", .vstr "v")])]⟩ rfl
  · exact (configuration_injection_full_and_isolated subst_id
      ⟨some "cfg.mod", none, none⟩ hook_config_param .vnone [("c1", .vstr "v")] .vnone
      rfl heap_c7 1 0 [("k", .hstr "v")] (by decide) rfl).2.2.2 [("k", .hstr "w")]

end Chaoslib
